import Mathlib

/-
Verification of the peelo-prompt line editor (include/peelo/prompt.hpp).

The editing state (struct state) and the history container are shallowly
embedded: the fixed char array buf is a total function from byte index to
byte value, std::size_t fields are Nat, the int history_index is Int, and
std::string values are lists of byte values. Terminal writes (refresh,
beep) do not change the editing state; beeps are counted where a claim
needs them. The C library primitives memmove, strlen, strncpy and snprintf
are modelled as explicit functions below.
-/

namespace PeeloPrompt

/-- Byte value of the space character, used by delete_previous_word. -/
def SPACE : Nat := 32

/-- PEELO_PROMPT_MAX_LINE: size in bytes of the fixed line buffer. -/
def MAX_LINE : Nat := 4096

/-- state.buflen after edit() reserves one byte for the terminating NUL:
MAX_LINE - 1 = 4095 usable bytes. This is the capacity of the line. -/
def BUFLEN : Nat := 4095

/-- Pointwise update of a byte array modelled as a function. -/
def upd (f : Nat → Nat) (i v : Nat) : Nat → Nat :=
  fun j => if j = i then v else f j

/-- Model of memmove(f + dst, f + src, n): the moved block is read from the
old array, which is the overlap-safe semantics of memmove. -/
def memmove (f : Nat → Nat) (dst src n : Nat) : Nat → Nat :=
  fun j => if dst ≤ j ∧ j < dst + n then f (src + (j - dst)) else f j

/-- Bounded scan for the first NUL byte at or after index i, with explicit
fuel; returns i + fuel when no NUL occurs in the scanned range. This is the
building block for the strlen, strncpy and snprintf models. -/
def strlenAux (f : Nat → Nat) : Nat → Nat → Nat
  | i, 0 => i
  | i, fuel+1 => if f i = 0 then i else strlenAux f (i+1) fuel

/-- strlen on the line buffer: index of the first NUL byte, scanning the
BUFLEN usable bytes. -/
def cstrlen (f : Nat → Nat) : Nat :=
  strlenAux f 0 BUFLEN

/-- View of a std::string value through its c_str pointer: the bytes of the
list, with NUL at and beyond its length. -/
def listFn (l : List Nat) : Nat → Nat :=
  fun j => l.getD j 0

/-- Model of strncpy(dst, src, n): copies src up to its first NUL byte, then
pads with NUL bytes, so that exactly the first n bytes of dst are written. -/
def strncpyFn (dst src : Nat → Nat) (n : Nat) : Nat → Nat :=
  fun j => if j < n then (if strlenAux src 0 n ≤ j then 0 else src j) else dst j

/-- Model of snprintf(dst, n, fmt, src) with a plain string conversion: at
most n - 1 bytes of src (up to its first NUL) are written, followed by a
terminating NUL byte. The value returned by snprintf itself is the full
untruncated length, modelled separately where needed. -/
def snprintfFn (dst : Nat → Nat) (n : Nat) (src : List Nat) : Nat → Nat :=
  fun j =>
    if j < min (strlenAux (listFn src) 0 src.length) (n - 1) then listFn src j
    else if j = min (strlenAux (listFn src) 0 src.length) (n - 1) then 0
    else dst j

/-- The line-editing state: struct state of the source restricted to the
fields that the edit operations read or write, together with the history
deque m_history_container (front of the list = front of the deque = oldest
entry), which edit_history_next mutates. The fields ifd, ofd, prompt,
oldpos, cols and maxrows only affect terminal output and are not modelled.
The source initialises buf[0] to NUL and leaves the rest of the array
uninitialised; the model takes the whole array as given. -/
structure EditState where
  buf : Nat → Nat
  pos : Nat
  len : Nat
  history : List (List Nat)
  history_index : Int

/-- The first len bytes of the buffer: the std::string(state.buf, state.len)
value that the source constructs from the state. -/
def bufferContent (s : EditState) : List Nat :=
  (List.range s.len).map s.buf

/-- insert(state, c): no-op at capacity; otherwise appends at the cursor
(shifting the tail right when the cursor is not at the end), advances the
cursor and rewrites the terminator. The write/refresh of the terminal does
not change the state and the write-failure path is not modelled here. -/
def insert (s : EditState) (c : Nat) : EditState :=
  if s.len < BUFLEN then
    if s.len = s.pos then
      { s with buf := upd (upd s.buf s.pos c) (s.len + 1) 0,
               pos := s.pos + 1, len := s.len + 1 }
    else
      { s with buf := upd (upd (memmove s.buf (s.pos + 1) s.pos (s.len - s.pos)) s.pos c)
                        (s.len + 1) 0,
               pos := s.pos + 1, len := s.len + 1 }
  else s

/-- move_left: Ctrl-B. -/
def move_left (s : EditState) : EditState :=
  if 0 < s.pos then { s with pos := s.pos - 1 } else s

/-- move_right: Ctrl-F. -/
def move_right (s : EditState) : EditState :=
  if s.pos ≠ s.len then { s with pos := s.pos + 1 } else s

/-- move_home: Ctrl-A. -/
def move_home (s : EditState) : EditState :=
  if s.pos ≠ 0 then { s with pos := 0 } else s

/-- move_end: Ctrl-E. -/
def move_end (s : EditState) : EditState :=
  if s.pos ≠ s.len then { s with pos := s.len } else s

/-- delete_next_char: the Delete key / Ctrl-D on a nonempty line. -/
def delete_next_char (s : EditState) : EditState :=
  if 0 < s.len ∧ s.pos < s.len then
    { s with buf := upd (memmove s.buf s.pos (s.pos + 1) (s.len - s.pos - 1)) (s.len - 1) 0,
             len := s.len - 1 }
  else s

/-- delete_previous_char: Backspace / Ctrl-H. -/
def delete_previous_char (s : EditState) : EditState :=
  if 0 < s.pos ∧ 0 < s.len then
    { s with buf := upd (memmove s.buf (s.pos - 1) s.pos (s.len - s.pos)) (s.len - 1) 0,
             pos := s.pos - 1, len := s.len - 1 }
  else s

/-- First loop of delete_previous_word: step the cursor left past spaces. -/
def skip_spaces (f : Nat → Nat) : Nat → Nat
  | 0 => 0
  | p+1 => if f p = SPACE then skip_spaces f p else p + 1

/-- Second loop of delete_previous_word: step the cursor left past the
non-space run. -/
def skip_word (f : Nat → Nat) : Nat → Nat
  | 0 => 0
  | p+1 => if f p ≠ SPACE then skip_word f p else p + 1

/-- delete_previous_word: Ctrl-W. The memmove copies len - old_pos + 1
bytes, so the terminator moves along with the tail. -/
def delete_previous_word (s : EditState) : EditState :=
  let pos2 := skip_word s.buf (skip_spaces s.buf s.pos)
  { s with buf := memmove s.buf pos2 s.pos (s.len - s.pos + 1),
           pos := pos2, len := s.len - (s.pos - pos2) }

/-- transpose_characters: Ctrl-T. -/
def transpose_characters (s : EditState) : EditState :=
  if 0 < s.pos ∧ s.pos < s.len then
    { s with buf := upd (upd s.buf (s.pos - 1) (s.buf s.pos)) s.pos (s.buf (s.pos - 1)),
             pos := if s.pos ≠ s.len - 1 then s.pos + 1 else s.pos }
  else s

/-- kill_line: Ctrl-U deletes the whole line. -/
def kill_line (s : EditState) : EditState :=
  { s with buf := upd s.buf 0 0, pos := 0, len := 0 }

/-- kill_end_of_line: Ctrl-K deletes from the cursor to the end of line. -/
def kill_end_of_line (s : EditState) : EditState :=
  { s with buf := upd s.buf s.pos 0, len := s.pos }

/-- edit_history_next(state, direction): substitutes the edited line with the
next (direction = true, Ctrl-N) or previous (direction = false, Ctrl-P)
history entry. It first writes the current buffer into the back of the
history container, steps and clamps the index, and on a successful step
loads the target entry with strncpy, forces a NUL at buflen - 1, and sets
len and pos to strlen of the result. -/
def edit_history_next (s : EditState) (direction : Bool) : EditState :=
  let size := s.history.length
  if size < 2 then s
  else
    let history2 := s.history.set (size - 1) (bufferContent s)
    let idx : Int := s.history_index + (if direction then (-1 : Int) else 1)
    if idx < 0 then
      { s with history := history2, history_index := 0 }
    else if (size : Int) ≤ idx then
      { s with history := history2, history_index := (size : Int) - 1 }
    else
      let entry := history2.getD (size - 1 - idx.toNat) []
      let buf2 := upd (strncpyFn s.buf (listFn entry) BUFLEN) (BUFLEN - 1) 0
      let len2 := cstrlen buf2
      { s with history := history2, history_index := idx,
               buf := buf2, pos := len2, len := len2 }

/-- The buffer edit operations of one editing session, as dispatched by the
key handler of edit(). -/
inductive Op where
  | ins (c : Nat)
  | delPrev
  | delNext
  | delWord
  | transpose
  | killLine
  | killEnd
  | mvLeft
  | mvRight
  | mvHome
  | mvEnd
  | histNext (direction : Bool)

/-- Apply one edit operation to the state. -/
def applyOp (s : EditState) : Op → EditState
  | .ins c => insert s c
  | .delPrev => delete_previous_char s
  | .delNext => delete_next_char s
  | .delWord => delete_previous_word s
  | .transpose => transpose_characters s
  | .killLine => kill_line s
  | .killEnd => kill_end_of_line s
  | .mvLeft => move_left s
  | .mvRight => move_right s
  | .mvHome => move_home s
  | .mvEnd => move_end s
  | .histNext d => edit_history_next s d

/-- Apply a sequence of edit operations. -/
def runOps (s : EditState) (ops : List Op) : EditState :=
  ops.foldl applyOp s

/-- The line-buffer invariant: cursor within the line, line within capacity,
and a NUL terminator at index len. -/
def Inv (s : EditState) : Prop :=
  s.pos ≤ s.len ∧ s.len ≤ BUFLEN ∧ s.buf s.len = 0

instance (s : EditState) : Decidable (Inv s) := by
  unfold Inv; infer_instance

/-- The prompt object: the data members of class prompt that the modelled
member functions touch. Terminal attributes and the callbacks are not data
here; the callbacks are passed explicitly to the functions that use them. -/
structure PromptState where
  m_multi_line : Bool
  m_raw_mode : Bool
  m_history_max_size : Nat
  m_history_container : List (List Nat)
deriving DecidableEq

/-- is_multi_line(). -/
def is_multi_line (p : PromptState) : Bool :=
  p.m_multi_line

/-- set_multi_line(flag): the source assigns the literal true to
m_multi_line, ignoring the flag argument. -/
def set_multi_line (p : PromptState) (flag : Bool) : PromptState :=
  { p with m_multi_line := true }

/-- add_to_history(line): rejects when history is disabled or when the line
equals the back entry; evicts the front entry when the container is at
capacity; then appends. Returns the bool result together with the new
state. -/
def add_to_history (p : PromptState) (line : List Nat) : Bool × PromptState :=
  if p.m_history_max_size = 0 then (false, p)
  else if p.m_history_container ≠ [] ∧ p.m_history_container.getLast? = some line then
    (false, p)
  else
    let h2 := if p.m_history_container.length = p.m_history_max_size
              then p.m_history_container.drop 1
              else p.m_history_container
    (true, { p with m_history_container := h2 ++ [line] })

/-- Fold add_to_history over a list of lines, keeping the state. -/
def addAll (p : PromptState) (lines : List (List Nat)) : PromptState :=
  lines.foldl (fun q l => (add_to_history q l).2) p

/-- Result of one ::read of a single byte: a byte value, or a failed read
(return value of read() that is zero or negative). -/
inductive ReadResult where
  | ok (c : Nat)
  | fail
deriving DecidableEq

/-- Return value of complete_line: the int c, the state, the unconsumed
input events, and the number of beeps emitted. -/
structure CompleteResult where
  c : Int
  state : EditState
  rest : List ReadResult
  bells : Nat

/-- One preview round of the cycling loop of complete_line, up to the read:
when i indexes a real candidate, the source saves the state, overwrites
len, pos and (by strncpy) buf with the candidate, refreshes, and then
restores len, pos and (by strncpy from the saved copy) buf. The two
strncpy calls survive in the buffer: bytes beyond the first NUL of the
saved buffer are zero-padded. When i is the original-buffer slot, only a
refresh happens. -/
def previewRestore (s : EditState) (cands : List (List Nat)) (i : Nat) : EditState :=
  if i < cands.length then
    { s with buf := strncpyFn (strncpyFn s.buf (listFn (cands.getD i [])) BUFLEN) s.buf BUFLEN }
  else s

/-- The cycling loop of complete_line. Each iteration previews candidate i
(restoring the real state), reads one byte, and dispatches: Tab advances i
round-robin over the candidates plus the original-buffer slot, beeping on
the wrap; Escape stops, redisplaying the original buffer; any other byte
commits candidate i (when i is a real candidate) via snprintf, setting len
and pos to the full candidate length that snprintf returns, and stops. A
failed read returns -1. The source reads the byte into the int c through a
one-byte read; the model takes the intended byte value. An exhausted input
list stands for a read that fails. -/
def completeLoop (cands : List (List Nat)) : EditState → Nat → Nat → List ReadResult → CompleteResult
  | s, i, bells, [] => ⟨-1, previewRestore s cands i, [], bells⟩
  | s, i, bells, ReadResult.fail :: rest => ⟨-1, previewRestore s cands i, rest, bells⟩
  | s, i, bells, ReadResult.ok c :: rest =>
    let s1 := previewRestore s cands i
    if c = 9 then
      let i2 := (i + 1) % (cands.length + 1)
      completeLoop cands s1 i2 (if i2 = cands.length then bells + 1 else bells) rest
    else if c = 27 then ⟨27, s1, rest, bells⟩
    else
      if i < cands.length then
        let cand := cands.getD i []
        let written := strlenAux (listFn cand) 0 cand.length
        ⟨(c : Int), { s1 with buf := snprintfFn s1.buf BUFLEN cand,
                              len := written, pos := written }, rest, bells⟩
      else ⟨(c : Int), s1, rest, bells⟩

/-- complete_line(state): the candidates are the container filled by the
completion callback on the current buffer content. The local int c starts
at -1; with no candidates the source only beeps and returns c, so the
empty-candidate path returns -1. -/
def complete_line (s : EditState) (cands : List (List Nat)) (inputs : List ReadResult) :
    CompleteResult :=
  if cands.length = 0 then ⟨-1, s, inputs, 1⟩
  else completeLoop cands s 0 0 inputs

/-- handle_esc: reads up to three further bytes and dispatches the escape
sequence. A failed read returns without an edit. An exhausted input list
stands for a read that fails. The source checks only for a read returning
-1; a read returning 0 would fall through and dispatch whatever bytes the
uninitialised seq array happens to hold, which has no definite value and
is modelled here as the same immediate return. -/
def handle_esc (s : EditState) : List ReadResult → EditState × List ReadResult
  | [] => (s, [])
  | ReadResult.fail :: rest => (s, rest)
  | ReadResult.ok a :: rest =>
    match rest with
    | [] => (s, [])
    | ReadResult.fail :: rest2 => (s, rest2)
    | ReadResult.ok b :: rest2 =>
      if a = 91 then
        if 48 ≤ b ∧ b ≤ 57 then
          match rest2 with
          | [] => (s, [])
          | ReadResult.fail :: rest3 => (s, rest3)
          | ReadResult.ok t :: rest3 =>
            if t = 126 then
              ((if b = 51 then delete_next_char s
                else if b = 49 then move_home s
                else if b = 52 then move_end s
                else s), rest3)
            else (s, rest3)
        else
          ((if b = 65 then edit_history_next s false
            else if b = 66 then edit_history_next s true
            else if b = 67 then move_right s
            else if b = 68 then move_left s
            else if b = 72 then move_home s
            else if b = 70 then move_end s
            else s), rest2)
      else if a = 79 then
        ((if b = 72 then move_home s
          else if b = 70 then move_end s
          else s), rest2)
      else (s, rest2)

/-- The switch statement of the edit() key loop for one byte c. Sum.inl is a
return from edit() carrying the returned value and the final history;
Sum.inr continues the loop. Enter pops the scratch history entry (the
container is never empty there since edit() pushed the scratch entry);
Ctrl-C returns with no pop; Ctrl-D deletes to the right on a nonempty line
and otherwise pops and returns no value. The session is modelled in
single-line mode with no hints callback, so the Enter case performs no
move_end and no hint-free refresh; Ctrl-L clears the screen without a
state change; the insert write-failure path is not modelled. -/
def dispatchKey (c : Nat) (s : EditState) (inputs : List ReadResult) :
    (Option (List Nat) × List (List Nat)) ⊕ (EditState × List ReadResult) :=
  if c = 13 then Sum.inl (some (bufferContent s), s.history.dropLast)
  else if c = 3 then Sum.inl (none, s.history)
  else if c = 127 ∨ c = 8 then Sum.inr (delete_previous_char s, inputs)
  else if c = 4 then
    (if 0 < s.len then Sum.inr (delete_next_char s, inputs)
     else Sum.inl (none, s.history.dropLast))
  else if c = 20 then Sum.inr (transpose_characters s, inputs)
  else if c = 2 then Sum.inr (move_left s, inputs)
  else if c = 6 then Sum.inr (move_right s, inputs)
  else if c = 16 then Sum.inr (edit_history_next s false, inputs)
  else if c = 14 then Sum.inr (edit_history_next s true, inputs)
  else if c = 27 then Sum.inr (handle_esc s inputs)
  else if c = 21 then Sum.inr (kill_line s, inputs)
  else if c = 11 then Sum.inr (kill_end_of_line s, inputs)
  else if c = 1 then Sum.inr (move_home s, inputs)
  else if c = 5 then Sum.inr (move_end s, inputs)
  else if c = 12 then Sum.inr (s, inputs)
  else Sum.inr (insert s c, inputs)

/-- Outcome of one edit() call: the optional returned line, the final
content of the history container, and how many beeps were emitted. -/
structure EditResult where
  result : Option (List Nat)
  history : List (List Nat)
  bells : Nat
deriving DecidableEq

/-- The main read loop of edit(). Each iteration reads one byte; a failed
read (or exhausted input) returns the current buffer content as the
result. A Tab byte with a completion callback registered runs
complete_line on the callback output: a negative c returns the buffer
content, c = 0 reads the next byte, and any other c is handled by the
key switch. The fuel argument only serves termination; the wrapper edit
passes more fuel than there are input events, so the fuel-zero branch is
never reached on those runs. -/
def editLoop (cb : Option (List Nat → List (List Nat))) :
    Nat → EditState → List ReadResult → Nat → EditResult
  | 0, s, _, bells => ⟨some (bufferContent s), s.history, bells⟩
  | fuel+1, s, inputs, bells =>
    match inputs with
    | [] => ⟨some (bufferContent s), s.history, bells⟩
    | ReadResult.fail :: _ => ⟨some (bufferContent s), s.history, bells⟩
    | ReadResult.ok c0 :: rest =>
      match cb, c0 with
      | some f, 9 =>
        let cr := complete_line s (f (bufferContent s)) rest
        if cr.c < 0 then ⟨some (bufferContent cr.state), cr.state.history, bells + cr.bells⟩
        else if cr.c = 0 then editLoop cb fuel cr.state cr.rest (bells + cr.bells)
        else
          match dispatchKey cr.c.toNat cr.state cr.rest with
          | Sum.inl p => ⟨p.1, p.2, bells + cr.bells⟩
          | Sum.inr q => editLoop cb fuel q.1 q.2 (bells + cr.bells)
      | _, _ =>
        match dispatchKey c0 s rest with
        | Sum.inl p => ⟨p.1, p.2, bells⟩
        | Sum.inr q => editLoop cb fuel q.1 q.2 bells

/-- The state set up at the top of edit(): empty buffer with its NUL at
index 0 (the rest of the array is uninitialised in the source; the model
zero-fills it), cursor 0, history index 0, and the scratch entry (an empty
string) pushed at the back of the history container. -/
def initState (history0 : List (List Nat)) : EditState :=
  { buf := fun _ => 0, pos := 0, len := 0,
    history := history0 ++ [[]], history_index := 0 }

/-- One full edit() call over a finite list of read events, starting from
the committed history entries history0. The write of the prompt string is
assumed to succeed here; the two write-checked return paths of the source
(the prompt write and the insert fast-path write) are modelled by editW
below. -/
def edit (cb : Option (List Nat → List (List Nat))) (history0 : List (List Nat))
    (inputs : List ReadResult) : EditResult :=
  editLoop cb (inputs.length + 1) (initState history0) inputs 0

/-- insert(state, c) with the checked terminal write of its fast path. In
the modelled session (single-line mode, no hints callback) the fast path
applies exactly when the buffer is not full, the cursor is at the end,
and prompt length plus the new length is below the terminal width; the
source then writes the single byte and returns false when that write
fails, with the state already mutated. On the slow path the refresh write
is unchecked and insert returns true. Each checked write consumes the
next outcome of the writes list; an exhausted list stands for writes that
succeed. -/
def insertW (plen cols : Nat) (s : EditState) (c : Nat) (writes : List Bool) :
    Bool × EditState × List Bool :=
  if s.len < BUFLEN ∧ s.len = s.pos ∧ plen + (s.len + 1) < cols then
    match writes with
    | [] => (true, insert s c, [])
    | w :: ws => (w, insert s c, ws)
  else (true, insert s c, writes)

/-- The key switch of edit() as in dispatchKey, with the default branch
checking the insert result as the source does: when insert() reports a
failed write, edit() returns no value, without touching the history
container (the scratch entry stays). -/
def dispatchKeyW (plen cols : Nat) (c : Nat) (s : EditState) (inputs : List ReadResult)
    (writes : List Bool) :
    (Option (List Nat) × List (List Nat)) ⊕ (EditState × List ReadResult × List Bool) :=
  if c = 13 then Sum.inl (some (bufferContent s), s.history.dropLast)
  else if c = 3 then Sum.inl (none, s.history)
  else if c = 127 ∨ c = 8 then Sum.inr (delete_previous_char s, inputs, writes)
  else if c = 4 then
    (if 0 < s.len then Sum.inr (delete_next_char s, inputs, writes)
     else Sum.inl (none, s.history.dropLast))
  else if c = 20 then Sum.inr (transpose_characters s, inputs, writes)
  else if c = 2 then Sum.inr (move_left s, inputs, writes)
  else if c = 6 then Sum.inr (move_right s, inputs, writes)
  else if c = 16 then Sum.inr (edit_history_next s false, inputs, writes)
  else if c = 14 then Sum.inr (edit_history_next s true, inputs, writes)
  else if c = 27 then
    (match handle_esc s inputs with
     | (s2, rest2) => Sum.inr (s2, rest2, writes))
  else if c = 21 then Sum.inr (kill_line s, inputs, writes)
  else if c = 11 then Sum.inr (kill_end_of_line s, inputs, writes)
  else if c = 1 then Sum.inr (move_home s, inputs, writes)
  else if c = 5 then Sum.inr (move_end s, inputs, writes)
  else if c = 12 then Sum.inr (s, inputs, writes)
  else
    match insertW plen cols s c writes with
    | (ok, s2, ws) => if ok then Sum.inr (s2, inputs, ws) else Sum.inl (none, s2.history)

/-- The main read loop of edit() as in editLoop, threading the outcomes of
the checked insert fast-path writes. complete_line performs no checked
write, so the Tab branch passes the writes list through unchanged. -/
def editLoopW (plen cols : Nat) (cb : Option (List Nat → List (List Nat))) :
    Nat → EditState → List ReadResult → List Bool → Nat → EditResult
  | 0, s, _, _, bells => ⟨some (bufferContent s), s.history, bells⟩
  | fuel+1, s, inputs, writes, bells =>
    match inputs with
    | [] => ⟨some (bufferContent s), s.history, bells⟩
    | ReadResult.fail :: _ => ⟨some (bufferContent s), s.history, bells⟩
    | ReadResult.ok c0 :: rest =>
      match cb, c0 with
      | some f, 9 =>
        let cr := complete_line s (f (bufferContent s)) rest
        if cr.c < 0 then ⟨some (bufferContent cr.state), cr.state.history, bells + cr.bells⟩
        else if cr.c = 0 then editLoopW plen cols cb fuel cr.state cr.rest writes (bells + cr.bells)
        else
          match dispatchKeyW plen cols cr.c.toNat cr.state cr.rest writes with
          | Sum.inl p => ⟨p.1, p.2, bells + cr.bells⟩
          | Sum.inr q => editLoopW plen cols cb fuel q.1 q.2.1 q.2.2 (bells + cr.bells)
      | _, _ =>
        match dispatchKeyW plen cols c0 s rest writes with
        | Sum.inl p => ⟨p.1, p.2, bells⟩
        | Sum.inr q => editLoopW plen cols cb fuel q.1 q.2.1 q.2.2 bells

/-- One full edit() call including the two write-checked return paths of
the source. The scratch entry is pushed (initState) before the prompt is
written, exactly as in the source; when the prompt write fails, edit()
returns no value at once, with the scratch entry still in the container.
The writes list feeds the checked insert fast-path writes. -/
def editW (plen cols : Nat) (cb : Option (List Nat → List (List Nat)))
    (history0 : List (List Nat)) (promptWrite : Bool)
    (inputs : List ReadResult) (writes : List Bool) : EditResult :=
  if promptWrite then
    editLoopW plen cols cb (inputs.length + 1) (initState history0) inputs writes 0
  else ⟨none, (initState history0).history, 0⟩

/-- First while loop of refresh_single_line: while plen + pos is at least
cols, drop a leading byte (advance buf, decrement len and pos). The source
loop does not terminate when plen is at least cols (pos would wrap below
zero); the model stops at pos = 0, and the theorems assume plen < cols. -/
def slideAux (plen cols : Nat) : Nat → Nat → Nat → Nat × Nat × Nat
  | off, len, 0 => (off, len, 0)
  | off, len, p+1 =>
    if cols ≤ plen + (p + 1) then slideAux plen cols (off + 1) (len - 1) p
    else (off, len, p + 1)

/-- Second while loop of refresh_single_line: while plen + len exceeds cols,
drop a trailing byte. -/
def trimAux (plen cols : Nat) : Nat → Nat
  | 0 => 0
  | l+1 => if cols < plen + (l + 1) then trimAux plen cols l else l + 1

/-- The visible window computed by refresh_single_line: the number of leading
buffer bytes dropped, the window length, and the cursor position within
the window. -/
def refreshWindow (plen cols len pos : Nat) : Nat × Nat × Nat :=
  let r := slideAux plen cols 0 len pos
  (r.1, trimAux plen cols r.2.1, r.2.2)

/-- The window bytes emitted by refresh_single_line between the prompt and
the erase-to-right sequence: len bytes starting at the slid buf pointer. -/
def visibleWindow (buf : Nat → Nat) (plen cols len pos : Nat) : List Nat :=
  (List.range (refreshWindow plen cols len pos).2.1).map
    (fun j => buf ((refreshWindow plen cols len pos).1 + j))

/-- The column argument of the final cursor-forward escape sequence emitted
by refresh_single_line: pos + plen after the two loops. -/
def refreshCursorCol (plen cols len pos : Nat) : Nat :=
  (refreshWindow plen cols len pos).2.2 + plen

/-- The hint colors, with the numeric values of enum class color. -/
inductive HColor where
  | none
  | black
  | red
  | green
  | yellow
  | blue
  | magenta
  | cyan
  | white
deriving DecidableEq

/-- The int value of a color enumerator. -/
def HColor.code : HColor → Int
  | .none => -1
  | .black => 30
  | .red => 31
  | .green => 32
  | .yellow => 33
  | .blue => 34
  | .magenta => 35
  | .cyan => 36
  | .white => 37

/-- A hint produced by the hints callback: the text together with the color
and bold flags the callback stored through its reference parameters. -/
structure Hint where
  text : List Nat
  col : HColor
  bold : Bool

/-- What show_hints appends to the refresh output for one hint: whether a
style escape sequence is emitted, its two parameters, the (possibly
truncated) hint text, and whether a style reset sequence follows. -/
structure HintOut where
  styled : Bool
  boldParam : Nat
  colorParam : Int
  text : List Nat
  reset : Bool
deriving DecidableEq

/-- show_hints: returns nothing when the prompt and buffer already reach the
terminal width. Otherwise the hint text is truncated to the remaining
columns, bold with no color becomes white, and a style prefix plus a
trailing reset are emitted exactly when a color is set or bold is set.
The hint argument is what the hints callback produced; none also covers
the case of no registered callback. -/
def show_hints (plen len cols : Nat) (hint : Option Hint) : Option HintOut :=
  if cols ≤ plen + len then none
  else
    match hint with
    | none => none
    | some h =>
      let hintmaxlen := cols - (plen + len)
      let hintlen := min h.text.length hintmaxlen
      let col2 := if h.bold = true ∧ h.col = HColor.none then HColor.white else h.col
      some { styled := decide (col2 ≠ HColor.none ∨ h.bold = true),
             boldParam := if h.bold then 1 else 0,
             colorParam := col2.code,
             text := h.text.take hintlen,
             reset := decide (col2 ≠ HColor.none ∨ h.bold = true) }

/-
Helper lemmas.
-/

theorem strlenAux_finds (f : Nat → Nat) :
    ∀ (fuel i k : Nat), i ≤ k → k < i + fuel → f k = 0 →
      strlenAux f i fuel ≤ k ∧ f (strlenAux f i fuel) = 0 := by
  intro fuel
  induction fuel with
  | zero => intro i k h1 h2 _; omega
  | succ fuel ih =>
    intro i k h1 h2 hk
    by_cases hf : f i = 0
    · simpa only [strlenAux, if_pos hf] using ⟨h1, hf⟩
    · have hik : i ≠ k := fun e => hf (e ▸ hk)
      simpa only [strlenAux, if_neg hf] using ih (i + 1) k (by omega) (by omega) hk

theorem strlenAux_ge (f : Nat → Nat) :
    ∀ (fuel i m : Nat), (∀ k, i ≤ k → k < m → f k ≠ 0) →
      min m (i + fuel) ≤ strlenAux f i fuel := by
  intro fuel
  induction fuel with
  | zero => intro i m _; simp only [strlenAux]; omega
  | succ fuel ih =>
    intro i m hnz
    simp only [strlenAux]
    split_ifs with hf
    · by_cases him : i < m
      · exact absurd hf (hnz i le_rfl him)
      · omega
    · have h := ih (i + 1) m (fun k hk1 hk2 => hnz k (by omega) hk2)
      omega

theorem skip_spaces_le (f : Nat → Nat) : ∀ p, skip_spaces f p ≤ p := by
  intro p
  induction p with
  | zero => simp [skip_spaces]
  | succ p ih =>
    simp only [skip_spaces]
    split_ifs with h
    · omega
    · omega

theorem skip_word_le (f : Nat → Nat) : ∀ p, skip_word f p ≤ p := by
  intro p
  induction p with
  | zero => simp [skip_word]
  | succ p ih =>
    simp only [skip_word]
    split_ifs with h
    · omega
    · omega

/-
Preservation of the line-buffer invariant by each edit operation.
-/

theorem inv_insert (s : EditState) (c : Nat) (h : Inv s) : Inv (insert s c) := by
  obtain ⟨h1, h2, h3⟩ := h
  unfold Inv insert
  split_ifs with hlen hpe
  · exact ⟨by dsimp only; omega, by dsimp only; omega, by simp [upd]⟩
  · exact ⟨by dsimp only; omega, by dsimp only; omega, by simp [upd]⟩
  · exact ⟨h1, h2, h3⟩

theorem inv_move_left (s : EditState) (h : Inv s) : Inv (move_left s) := by
  obtain ⟨h1, h2, h3⟩ := h
  unfold Inv move_left
  split_ifs with hp
  · exact ⟨by dsimp only; omega, h2, h3⟩
  · exact ⟨h1, h2, h3⟩

theorem inv_move_right (s : EditState) (h : Inv s) : Inv (move_right s) := by
  obtain ⟨h1, h2, h3⟩ := h
  unfold Inv move_right
  split_ifs with hp
  · exact ⟨by dsimp only; omega, h2, h3⟩
  · exact ⟨h1, h2, h3⟩

theorem inv_move_home (s : EditState) (h : Inv s) : Inv (move_home s) := by
  obtain ⟨h1, h2, h3⟩ := h
  unfold Inv move_home
  split_ifs with hp
  · exact ⟨by dsimp only; omega, h2, h3⟩
  · exact ⟨h1, h2, h3⟩

theorem inv_move_end (s : EditState) (h : Inv s) : Inv (move_end s) := by
  obtain ⟨h1, h2, h3⟩ := h
  unfold Inv move_end
  split_ifs with hp
  · exact ⟨by dsimp only; omega, h2, h3⟩
  · exact ⟨h1, h2, h3⟩

theorem inv_delete_next_char (s : EditState) (h : Inv s) : Inv (delete_next_char s) := by
  obtain ⟨h1, h2, h3⟩ := h
  unfold Inv delete_next_char
  split_ifs with hc
  · exact ⟨by dsimp only; omega, by dsimp only; omega, by simp [upd]⟩
  · exact ⟨h1, h2, h3⟩

theorem inv_delete_previous_char (s : EditState) (h : Inv s) : Inv (delete_previous_char s) := by
  obtain ⟨h1, h2, h3⟩ := h
  unfold Inv delete_previous_char
  split_ifs with hc
  · exact ⟨by dsimp only; omega, by dsimp only; omega, by simp [upd]⟩
  · exact ⟨h1, h2, h3⟩

theorem inv_delete_previous_word (s : EditState) (h : Inv s) : Inv (delete_previous_word s) := by
  obtain ⟨h1, h2, h3⟩ := h
  have hp2 : skip_word s.buf (skip_spaces s.buf s.pos) ≤ s.pos :=
    le_trans (skip_word_le _ _) (skip_spaces_le _ _)
  unfold Inv delete_previous_word
  dsimp only
  refine ⟨by omega, by omega, ?_⟩
  unfold memmove
  rw [if_pos ⟨by omega, by omega⟩]
  have he : s.pos + (s.len - (s.pos - skip_word s.buf (skip_spaces s.buf s.pos)) -
      skip_word s.buf (skip_spaces s.buf s.pos)) = s.len := by omega
  rw [he]
  exact h3

theorem inv_transpose_characters (s : EditState) (h : Inv s) :
    Inv (transpose_characters s) := by
  obtain ⟨h1, h2, h3⟩ := h
  unfold Inv transpose_characters
  split_ifs with hc hpe
  · refine ⟨by dsimp only; omega, h2, ?_⟩
    dsimp only
    unfold upd
    rw [if_neg (by omega), if_neg (by omega)]
    exact h3
  · refine ⟨by dsimp only; omega, h2, ?_⟩
    dsimp only
    unfold upd
    rw [if_neg (by omega), if_neg (by omega)]
    exact h3
  · exact ⟨h1, h2, h3⟩

theorem inv_kill_line (s : EditState) (h : Inv s) : Inv (kill_line s) := by
  unfold Inv kill_line
  exact ⟨le_rfl, Nat.zero_le _, by simp [upd]⟩

theorem inv_kill_end_of_line (s : EditState) (h : Inv s) : Inv (kill_end_of_line s) := by
  obtain ⟨h1, h2, h3⟩ := h
  unfold Inv kill_end_of_line
  exact ⟨le_rfl, by dsimp only; omega, by simp [upd]⟩

theorem upd_last_nul (f : Nat → Nat) (v : Nat) : upd f (BUFLEN - 1) v (BUFLEN - 1) = v := by
  simp [upd]

theorem cstrlen_of_nul_at_last (B : Nat → Nat) (hB : B (BUFLEN - 1) = 0) :
    cstrlen B ≤ BUFLEN - 1 ∧ B (cstrlen B) = 0 := by
  have hfind := strlenAux_finds B BUFLEN 0 (BUFLEN - 1) (Nat.zero_le _) (by decide) hB
  exact ⟨hfind.1, hfind.2⟩

theorem inv_edit_history_next (s : EditState) (d : Bool) (h : Inv s) :
    Inv (edit_history_next s d) := by
  obtain ⟨h1, h2, h3⟩ := h
  unfold Inv edit_history_next
  set δ : Int := if d then (-1 : Int) else 1 with hδ
  dsimp only
  split_ifs with hsz hneg hover
  · exact ⟨h1, h2, h3⟩
  · exact ⟨h1, h2, h3⟩
  · exact ⟨h1, h2, h3⟩
  · exact ⟨le_rfl,
      le_trans (cstrlen_of_nul_at_last _ (upd_last_nul _ 0)).1 (Nat.sub_le _ _),
      (cstrlen_of_nul_at_last _ (upd_last_nul _ 0)).2⟩

theorem inv_applyOp (s : EditState) (op : Op) (h : Inv s) : Inv (applyOp s op) := by
  cases op with
  | ins c => exact inv_insert s c h
  | delPrev => exact inv_delete_previous_char s h
  | delNext => exact inv_delete_next_char s h
  | delWord => exact inv_delete_previous_word s h
  | transpose => exact inv_transpose_characters s h
  | killLine => exact inv_kill_line s h
  | killEnd => exact inv_kill_end_of_line s h
  | mvLeft => exact inv_move_left s h
  | mvRight => exact inv_move_right s h
  | mvHome => exact inv_move_home s h
  | mvEnd => exact inv_move_end s h
  | histNext d => exact inv_edit_history_next s d h

theorem inv_runOps (s : EditState) (ops : List Op) (h : Inv s) : Inv (runOps s ops) := by
  induction ops generalizing s with
  | nil => exact h
  | cons op ops ih => exact ih (applyOp s op) (inv_applyOp s op h)

/-- C1: for every sequence of line-buffer edit operations (insert, deletes,
word delete, transpose, kills, cursor moves, history navigation) applied
within one editing session, the invariant 0 ≤ cursor ≤ length ≤ capacity
holds after every operation (every prefix of the sequence is itself a
sequence, so this statement covers each intermediate state), the byte at
index length is the NUL terminator, and insert on a full buffer (length =
capacity) leaves the state, in particular length, cursor and the
terminator byte, unchanged. -/
theorem c1_buffer_invariant (s : EditState) (ops : List Op) (c : Nat) (h : Inv s) :
    (0 ≤ (runOps s ops).pos ∧ (runOps s ops).pos ≤ (runOps s ops).len ∧
      (runOps s ops).len ≤ BUFLEN ∧ (runOps s ops).buf (runOps s ops).len = 0) ∧
    ((runOps s ops).len = BUFLEN → insert (runOps s ops) c = runOps s ops) := by
  have hinv := inv_runOps s ops h
  obtain ⟨h1, h2, h3⟩ := hinv
  refine ⟨⟨Nat.zero_le _, h1, h2, h3⟩, ?_⟩
  intro hcap
  unfold insert
  rw [if_neg (by omega)]

/-- Concrete check for C1: the initial session state satisfies the
invariant, and a small mixed operation sequence preserves it. -/
theorem c1_buffer_invariant_check :
    Inv (initState []) ∧
    ((0 ≤ (runOps (initState []) [Op.ins 104, Op.ins 105, Op.mvLeft, Op.ins 33,
        Op.delPrev, Op.killEnd]).pos ∧
      (runOps (initState []) [Op.ins 104, Op.ins 105, Op.mvLeft, Op.ins 33,
        Op.delPrev, Op.killEnd]).pos ≤ (runOps (initState []) [Op.ins 104, Op.ins 105,
        Op.mvLeft, Op.ins 33, Op.delPrev, Op.killEnd]).len ∧
      (runOps (initState []) [Op.ins 104, Op.ins 105, Op.mvLeft, Op.ins 33,
        Op.delPrev, Op.killEnd]).len ≤ BUFLEN ∧
      (runOps (initState []) [Op.ins 104, Op.ins 105, Op.mvLeft, Op.ins 33,
        Op.delPrev, Op.killEnd]).buf (runOps (initState []) [Op.ins 104, Op.ins 105,
        Op.mvLeft, Op.ins 33, Op.delPrev, Op.killEnd]).len = 0) ∧
     ((runOps (initState []) [Op.ins 104, Op.ins 105, Op.mvLeft, Op.ins 33,
        Op.delPrev, Op.killEnd]).len = BUFLEN →
       insert (runOps (initState []) [Op.ins 104, Op.ins 105, Op.mvLeft, Op.ins 33,
        Op.delPrev, Op.killEnd]) 97 = runOps (initState []) [Op.ins 104, Op.ins 105,
        Op.mvLeft, Op.ins 33, Op.delPrev, Op.killEnd])) :=
  ⟨by decide, c1_buffer_invariant (initState []) [Op.ins 104, Op.ins 105, Op.mvLeft,
    Op.ins 33, Op.delPrev, Op.killEnd] 97 (by decide)⟩

/-- C10: set_multi_line ignores its boolean argument and always enables
multi-line mode; in particular after set_multi_line with the flag false
(or any flag), is_multi_line returns true. -/
theorem c10_set_multi_line_forces_true (p : PromptState) (flag : Bool) :
    is_multi_line (set_multi_line p flag) = true := rfl

/-- The mid-session state used for the C2 evaluation: one committed history
entry (the byte of the letter a), the scratch slot pushed by edit(), and
the typed byte x in the live buffer. -/
def c2state : EditState :=
  { buf := listFn [120], pos := 1, len := 1,
    history := [[97], []], history_index := 0 }

/-- C2: the navigation round trip fails on the code. With one committed
history entry (the byte of the letter a) and the live buffer holding the
typed byte x, one backward step (Ctrl-P) followed by one forward step
(Ctrl-N) leaves the buffer holding the committed entry, not the typed
text: edit_history_next always writes the live buffer into the back
(scratch) slot, so the forward step overwrites the saved text with the
entry being displayed before reloading the scratch slot. -/
theorem c2_history_roundtrip_eval :
    bufferContent (edit_history_next (edit_history_next c2state false) true) = [97] ∧
    bufferContent (edit_history_next (edit_history_next c2state false) true) ≠ [120] := by
  decide

/-- The state used for the C7 counterexample: buffer of the two bytes a b
with the cursor at index 1. -/
def c7bad : EditState :=
  { buf := listFn [97, 98], pos := 1, len := 2,
    history := [], history_index := 0 }

/-- C7 counterexample: the claim says Ctrl-U (kill_line) keeps the bytes
from the cursor to the end. On the buffer of the two bytes a b with the
cursor at index 1 the code leaves an empty buffer of length 0, not the
one-byte suffix. -/
theorem c7_ctrl_u_counterexample :
    bufferContent (kill_line c7bad) = [] ∧
    bufferContent (kill_line c7bad) ≠ [98] ∧
    (kill_line c7bad).len = 0 := by
  decide

/-- C7 (amended): kill_line (Ctrl-U) deletes the whole line, leaving an
empty buffer with the cursor at 0, while kill_end_of_line (Ctrl-K)
removes the bytes from the cursor to the end, leaving exactly the first
cursor bytes with the cursor position unchanged. -/
theorem c7_kill_ops (s : EditState) (hps : s.pos ≤ s.len) :
    (kill_line s).len = 0 ∧ (kill_line s).pos = 0 ∧
    bufferContent (kill_line s) = [] ∧
    (kill_end_of_line s).pos = s.pos ∧ (kill_end_of_line s).len = s.pos ∧
    bufferContent (kill_end_of_line s) = (bufferContent s).take s.pos := by
  refine ⟨rfl, rfl, by simp [bufferContent, kill_line], rfl, rfl, ?_⟩
  unfold bufferContent kill_end_of_line
  dsimp only
  rw [← List.map_take, List.take_range, min_eq_left hps]
  apply List.map_congr_left
  intro j hj
  rw [List.mem_range] at hj
  unfold upd
  rw [if_neg (by omega)]

/-- The concrete state used for the C7 witness: buffer of the bytes of the
word foo, a space and the word bar, cursor at index 4. -/
def c7state : EditState :=
  { buf := listFn [102, 111, 111, 32, 98, 97, 114], pos := 4, len := 7,
    history := [], history_index := 0 }

/-- Concrete check for C7 (amended) at the buffer f o o space b a r with
the cursor at index 4. -/
theorem c7_kill_ops_check :
    c7state.pos ≤ c7state.len ∧
    ((kill_line c7state).len = 0 ∧ (kill_line c7state).pos = 0 ∧
     bufferContent (kill_line c7state) = [] ∧
     (kill_end_of_line c7state).pos = c7state.pos ∧
     (kill_end_of_line c7state).len = c7state.pos ∧
     bufferContent (kill_end_of_line c7state) = (bufferContent c7state).take c7state.pos) :=
  ⟨by decide, c7_kill_ops c7state (by decide)⟩

/-
History eviction (C5).
-/

theorem addAll_lastN (m : Nat) (hm : 1 ≤ m) :
    ∀ (L : List (List Nat)) (p : PromptState),
      p.m_history_max_size = m →
      p.m_history_container.length ≤ m →
      L.Chain' (· ≠ ·) →
      (∀ y, L.head? = some y → p.m_history_container.getLast? ≠ some y) →
      (addAll p L).m_history_container =
        (p.m_history_container ++ L).drop ((p.m_history_container ++ L).length - m) := by
  intro L
  induction L with
  | nil =>
    intro p hmax hlen _ _
    have h0 : (p.m_history_container ++ []).length - m = 0 := by
      rw [List.append_nil]
      omega
    rw [h0, List.append_nil, List.drop_zero]
    rfl
  | cons l L ih =>
    intro p hmax hlen hchain hne
    have hhead := (List.chain'_cons'.mp hchain).1
    have htail := (List.chain'_cons'.mp hchain).2
    have hstep : addAll p (l :: L) = addAll (add_to_history p l).2 L := rfl
    have hded : ¬(p.m_history_container ≠ [] ∧ p.m_history_container.getLast? = some l) := by
      rintro ⟨_, hlast⟩
      exact hne l rfl hlast
    rw [hstep]
    unfold add_to_history
    rw [if_neg (by omega), if_neg hded]
    dsimp only
    by_cases hcap : p.m_history_container.length = p.m_history_max_size
    · rw [if_pos hcap]
      have hnn : p.m_history_container ≠ [] := by
        intro he
        rw [he] at hcap
        simp only [List.length_nil] at hcap
        omega
      obtain ⟨a, t, hct⟩ := List.exists_cons_of_ne_nil hnn
      have hlen2 : t.length + 1 = m := by
        rw [hct, List.length_cons] at hcap
        omega
      have hrec := ih { p with m_history_container := p.m_history_container.drop 1 ++ [l] }
        (by dsimp only; exact hmax)
        (by
          dsimp only
          rw [hct]
          simp only [List.drop_one, List.tail_cons, List.length_append, List.length_cons,
            List.length_nil]
          omega)
        htail
        (by
          intro y hy
          dsimp only
          rw [List.getLast?_concat]
          intro he
          exact (hhead y (Option.mem_def.mpr hy)) (Option.some.inj he))
      dsimp only at hrec
      rw [hrec, hct]
      simp only [List.drop_one, List.tail_cons]
      rw [List.append_assoc, List.singleton_append, List.cons_append]
      have e1 : (t ++ l :: L).length - m = L.length := by
        rw [List.length_append, List.length_cons]
        omega
      have e2 : (a :: (t ++ l :: L)).length - m = L.length + 1 := by
        rw [List.length_cons, List.length_append, List.length_cons]
        omega
      rw [e1, e2, List.drop_succ_cons]
    · rw [if_neg hcap]
      have hlt : p.m_history_container.length < m := by omega
      have hrec := ih { p with m_history_container := p.m_history_container ++ [l] }
        (by dsimp only; exact hmax)
        (by
          dsimp only
          rw [List.length_append, List.length_singleton]
          omega)
        htail
        (by
          intro y hy
          dsimp only
          rw [List.getLast?_concat]
          intro he
          exact (hhead y (Option.mem_def.mpr hy)) (Option.some.inj he))
      dsimp only at hrec
      rw [hrec, List.append_assoc, List.singleton_append]

/-- C5: for a history with max size m of at least 1, adding m + 1 pairwise
distinct lines through add_to_history starting from an empty history
leaves exactly the last m lines, i.e. the list without its first element:
the oldest entry is evicted first (FIFO) and the survivors keep their
relative order. -/
theorem c5_history_eviction (p : PromptState) (L : List (List Nat))
    (h0 : p.m_history_container = []) (hm : 1 ≤ p.m_history_max_size)
    (hlen : L.length = p.m_history_max_size + 1) (hd : L.Pairwise (· ≠ ·)) :
    (addAll p L).m_history_container = L.tail := by
  have hmain := addAll_lastN p.m_history_max_size hm L p rfl
    (by rw [h0]; simp) hd.chain'
    (by intro y _; rw [h0]; simp)
  rw [h0, List.nil_append] at hmain
  rw [hmain, hlen]
  have e : p.m_history_max_size + 1 - p.m_history_max_size = 1 := by omega
  rw [e, List.drop_one]

/-- The prompt object used for the C5 witness: max history size 2, empty
history. -/
def c5prompt : PromptState := ⟨false, false, 2, []⟩

/-- Concrete check for C5: with max size 2, adding the three distinct lines
a, b, c leaves the entries b, c. -/
theorem c5_history_eviction_check :
    c5prompt.m_history_container = [] ∧ 1 ≤ c5prompt.m_history_max_size ∧
    ([[97], [98], [99]] : List (List Nat)).length = c5prompt.m_history_max_size + 1 ∧
    ([[97], [98], [99]] : List (List Nat)).Pairwise (· ≠ ·) ∧
    (addAll c5prompt [[97], [98], [99]]).m_history_container =
      ([[97], [98], [99]] : List (List Nat)).tail :=
  ⟨rfl, by decide, by decide, by decide,
    c5_history_eviction c5prompt [[97], [98], [99]] rfl (by decide) (by decide) (by decide)⟩

/-
Scratch-slot lifecycle (C6) and completion error paths (C3, C4).
-/

/-- The completion callback used for the C6 cycling conjunct: one
candidate, the single byte a. -/
def c6cb : List Nat → List (List Nat) := fun _ => [[97]]

/-- C6 counterexample: on the Ctrl-C interrupt path the scratch entry pushed
at the start of edit() is not removed: starting from an empty history
(prompt length 2, width 80, prompt write succeeding), an input consisting
only of Ctrl-C returns no value but leaves one (scratch) entry in the
history container, where the claim requires zero. -/
theorem c6_scratch_interrupt_counterexample :
    (editW 2 80 none [] true [ReadResult.ok 3] []).result = none ∧
    (editW 2 80 none [] true [ReadResult.ok 3] []).history.length = 0 + 1 := by
  decide

/-- C6 (amended): the scratch entry pushed at the start of edit() is removed
before returning only on the Enter-commit path and on the
Ctrl-D-on-empty-buffer path, so the history container is restored to its
pre-call content there; on the Ctrl-C interrupt path, on the read-failure
paths (both in the main loop and during completion cycling), on the
prompt-write-failure path and on the insert-write-failure path the
scratch entry is not removed, and the container then holds one entry more
than before the call. Stated over every prior history h, with prompt
length 2 and width 80 so that the single typed byte takes the checked
fast-path write. -/
theorem c6_scratch_lifecycle (h : List (List Nat)) :
    (editW 2 80 none h true [ReadResult.ok 13] []).history = h ∧
    (editW 2 80 none h true [ReadResult.ok 4] []).history = h ∧
    (editW 2 80 none h true [ReadResult.ok 3] []).history.length = h.length + 1 ∧
    (editW 2 80 none h true [] []).history.length = h.length + 1 ∧
    (editW 2 80 (some c6cb) h true [ReadResult.ok 9, ReadResult.fail] []).history.length =
      h.length + 1 ∧
    (editW 2 80 none h false [] []).history.length = h.length + 1 ∧
    ((editW 2 80 none h true [ReadResult.ok 97, ReadResult.ok 13] [false]).result = none ∧
     (editW 2 80 none h true [ReadResult.ok 97, ReadResult.ok 13] [false]).history.length =
       h.length + 1) := by
  refine ⟨?_, ?_, ?_, ?_, ?_, ?_, ?_, ?_⟩
  · have e : (editW 2 80 none h true [ReadResult.ok 13] []).history =
        (h ++ [[]]).dropLast := rfl
    rw [e, List.dropLast_concat]
  · have e : (editW 2 80 none h true [ReadResult.ok 4] []).history =
        (h ++ [[]]).dropLast := rfl
    rw [e, List.dropLast_concat]
  · have e : (editW 2 80 none h true [ReadResult.ok 3] []).history = h ++ [[]] := rfl
    rw [e, List.length_append, List.length_singleton]
  · have e : (editW 2 80 none h true [] []).history = h ++ [[]] := rfl
    rw [e, List.length_append, List.length_singleton]
  · have e : (editW 2 80 (some c6cb) h true [ReadResult.ok 9, ReadResult.fail] []).history =
        h ++ [[]] := rfl
    rw [e, List.length_append, List.length_singleton]
  · have e : (editW 2 80 none h false [] []).history = h ++ [[]] := rfl
    rw [e, List.length_append, List.length_singleton]
  · rfl
  · have e : (editW 2 80 none h true [ReadResult.ok 97, ReadResult.ok 13] [false]).history =
        h ++ [[]] := rfl
    rw [e, List.length_append, List.length_singleton]

/-- The completion callback used for C3: it always yields an empty
candidate list. -/
def c3cb : List Nat → List (List Nat) := fun _ => []

/-- C3: with a completion callback registered that yields an empty candidate
list, pressing Tab emits one bell and leaves the buffer and cursor
unchanged, but contrary to the claim the editing session does not
continue: the local int c of complete_line stays at its initial -1, so
edit() takes its error path and returns the current buffer content
immediately. A session fed Tab, the letter a, Enter returns the empty
buffer without consuming the remaining input, instead of continuing and
returning the line with the letter a. -/
theorem c3_empty_completion_eval :
    edit (some c3cb) [] [ReadResult.ok 9, ReadResult.ok 97, ReadResult.ok 13] =
      { result := some [], history := [[]], bells := 1 } ∧
    complete_line (initState []) (c3cb (bufferContent (initState []))) [] =
      { c := -1, state := initState [], rest := [], bells := 1 } := by
  exact ⟨by decide, rfl⟩

/-- The completion callback used for C4: one candidate, the two bytes
a b. -/
def c4cb : List Nat → List (List Nat) := fun _ => [[97, 98]]

/-- C4 counterexample: a read failure while completion cycling is in
progress does abort the input() call, but the returned value is the
in-progress buffer content (a present optional, here the empty line),
not the absent optional that the claim states. -/
theorem c4_cycling_failure_counterexample :
    (edit (some c4cb) [] [ReadResult.ok 9, ReadResult.fail]).result = some [] ∧
    (edit (some c4cb) [] [ReadResult.ok 9, ReadResult.fail]).result ≠ none := by
  decide

theorem previewRestore_content (s : EditState) (cands : List (List Nat)) (i : Nat)
    (hlen : s.len ≤ BUFLEN) (hnn : ∀ k, k < s.len → s.buf k ≠ 0) :
    bufferContent (previewRestore s cands i) = bufferContent s ∧
    (previewRestore s cands i).history = s.history := by
  unfold previewRestore
  split_ifs with hi
  · constructor
    · unfold bufferContent
      dsimp only
      apply List.map_congr_left
      intro j hj
      rw [List.mem_range] at hj
      have hz : s.len ≤ strlenAux s.buf 0 BUFLEN := by
        have := strlenAux_ge s.buf BUFLEN 0 s.len (fun k _ hk2 => hnn k hk2)
        omega
      simp only [strncpyFn]
      rw [if_pos (by omega), if_neg (by omega)]
    · rfl
  · exact ⟨rfl, rfl⟩

/-- C4 (amended): a read failure aborts the input() call with the
in-progress buffer content in both regimes. Outside completion cycling
the read loop returns the buffer content directly; inside completion
cycling complete_line returns -1 and edit() then also returns the
(restored) buffer content, not the absent optional. The cycling case
assumes the buffer holds no NUL byte within its length (true of every
state the editor reaches), so that the saving strncpy round trip restores
the content exactly. -/
theorem c4_read_failure_returns_buffer (cb : Option (List Nat → List (List Nat)))
    (f : List Nat → List (List Nat)) (s : EditState) (fuel : Nat)
    (rest : List ReadResult) (bells : Nat)
    (hlen : s.len ≤ BUFLEN) (hnn : ∀ k, k < s.len → s.buf k ≠ 0)
    (hcand : f (bufferContent s) ≠ []) :
    editLoop cb (fuel + 1) s (ReadResult.fail :: rest) bells =
      { result := some (bufferContent s), history := s.history, bells := bells } ∧
    editLoop (some f) (fuel + 1) s (ReadResult.ok 9 :: ReadResult.fail :: rest) bells =
      { result := some (bufferContent s), history := s.history, bells := bells } := by
  constructor
  · rfl
  · have hlc : ¬((f (bufferContent s)).length = 0) := by
      intro h0
      exact hcand (List.length_eq_zero.mp h0)
    have e1 : complete_line s (f (bufferContent s)) (ReadResult.fail :: rest) =
        ⟨-1, previewRestore s (f (bufferContent s)) 0, rest, 0⟩ := by
      unfold complete_line
      rw [if_neg hlc]
      rfl
    simp only [editLoop]
    rw [e1]
    have hpr := previewRestore_content s (f (bufferContent s)) 0 hlen hnn
    simp only [hpr.1, hpr.2, Nat.add_zero]
    rfl

/-- Concrete check for C4 (amended): starting from the fresh session state
with the one-candidate callback, a read failure both directly and during
cycling returns the (empty) buffer content. -/
theorem c4_read_failure_check :
    (initState []).len ≤ BUFLEN ∧
    (∀ k, k < (initState []).len → (initState []).buf k ≠ 0) ∧
    c4cb (bufferContent (initState [])) ≠ [] ∧
    (editLoop (some c4cb) (0 + 1) (initState []) [ReadResult.fail] 0 =
      { result := some (bufferContent (initState [])),
        history := (initState []).history, bells := 0 } ∧
     editLoop (some c4cb) (0 + 1) (initState [])
        [ReadResult.ok 9, ReadResult.fail] 0 =
      { result := some (bufferContent (initState [])),
        history := (initState []).history, bells := 0 }) :=
  ⟨by decide, fun k hk => absurd hk (Nat.not_lt_zero k), by decide,
    c4_read_failure_returns_buffer (some c4cb) c4cb (initState []) 0 [] 0
      (by decide) (fun k hk => absurd hk (Nat.not_lt_zero k)) (by decide)⟩

/-
Single-line refresh windowing (C8).
-/

theorem slideAux_spec (plen cols : Nat) (hp : plen < cols) :
    ∀ (pos off len : Nat),
      ∃ d, d ≤ pos ∧ slideAux plen cols off len pos = (off + d, len - d, pos - d) ∧
        plen + (pos - d) < cols ∧
        (cols ≤ plen + pos → plen + (pos - d) + 1 = cols) ∧
        (plen + pos < cols → d = 0) := by
  intro pos
  induction pos with
  | zero =>
    intro off len
    refine ⟨0, le_rfl, by simp [slideAux], by simpa using hp, by intro hc; omega, fun _ => rfl⟩
  | succ p ih =>
    intro off len
    by_cases hc : cols ≤ plen + (p + 1)
    · obtain ⟨d, hd1, hd2, hd3, hd4, hd5⟩ := ih (off + 1) (len - 1)
      refine ⟨d + 1, by omega, ?_, by omega, ?_, by intro h3; omega⟩
      · show slideAux plen cols off len (p + 1) = _
        simp only [slideAux]
        rw [if_pos hc, hd2,
          show off + 1 + d = off + (d + 1) from by omega,
          show len - 1 - d = len - (d + 1) from by omega,
          show p - d = p + 1 - (d + 1) from by omega]
      · intro _
        by_cases h2 : cols ≤ plen + p
        · have := hd4 h2
          omega
        · have := hd5 (by omega)
          omega
    · refine ⟨0, Nat.zero_le _, ?_, by omega, by intro h2; omega, fun _ => rfl⟩
      simp only [slideAux]
      rw [if_neg hc]
      simp

theorem trimAux_le (plen cols : Nat) : ∀ len, trimAux plen cols len ≤ len := by
  intro len
  induction len with
  | zero => simp [trimAux]
  | succ l ih =>
    simp only [trimAux]
    split_ifs with h
    · omega
    · omega

theorem trimAux_fits (plen cols : Nat) (hp : plen ≤ cols) :
    ∀ len, plen + trimAux plen cols len ≤ cols := by
  intro len
  induction len with
  | zero => simpa [trimAux] using hp
  | succ l ih =>
    simp only [trimAux]
    split_ifs with h
    · exact ih
    · omega

theorem trimAux_ge (plen cols : Nat) :
    ∀ len b, b ≤ len → plen + b ≤ cols → b ≤ trimAux plen cols len := by
  intro len
  induction len with
  | zero => intro b h1 _; simpa [trimAux] using h1
  | succ l ih =>
    intro b h1 h2
    simp only [trimAux]
    split_ifs with h
    · exact ih b (by omega) h2
    · omega

/-- C8: in single-line refresh, when the prompt length plus the cursor
position reaches or exceeds the terminal width, the first loop drops
leading bytes until the cursor fits exactly at the last column before the
width, and the second loop drops trailing bytes until prompt plus window
fits within the width. The emitted window is the contiguous slice of the
buffer starting at the drop offset, it still contains the cursor, and the
trailing cursor-forward sequence places the cursor at its true column:
the cursor position within the window plus the prompt length. When the
cursor already fits, no leading byte is dropped. -/
theorem c8_single_line_window (buf : Nat → Nat) (plen cols len pos : Nat)
    (hp : plen < cols) (hpos : pos ≤ len) :
    plen + (refreshWindow plen cols len pos).2.1 ≤ cols ∧
    plen + (refreshWindow plen cols len pos).2.2 < cols ∧
    (refreshWindow plen cols len pos).1 + (refreshWindow plen cols len pos).2.2 = pos ∧
    (refreshWindow plen cols len pos).2.2 ≤ (refreshWindow plen cols len pos).2.1 ∧
    (refreshWindow plen cols len pos).1 + (refreshWindow plen cols len pos).2.1 ≤ len ∧
    (cols ≤ plen + pos → plen + (refreshWindow plen cols len pos).2.2 + 1 = cols) ∧
    (plen + pos < cols → (refreshWindow plen cols len pos).1 = 0) ∧
    refreshCursorCol plen cols len pos = (pos - (refreshWindow plen cols len pos).1) + plen ∧
    visibleWindow buf plen cols len pos =
      (((List.range len).map buf).drop (refreshWindow plen cols len pos).1).take
        (refreshWindow plen cols len pos).2.1 := by
  obtain ⟨d, hd1, hd2, hd3, hd4, hd5⟩ := slideAux_spec plen cols hp pos 0 len
  have hw : refreshWindow plen cols len pos = (0 + d, trimAux plen cols (len - d), pos - d) := by
    unfold refreshWindow
    rw [hd2]
  have hT : trimAux plen cols (len - d) ≤ len - d := trimAux_le plen cols (len - d)
  unfold visibleWindow refreshCursorCol
  rw [hw]
  dsimp only
  simp only [Nat.zero_add]
  refine ⟨trimAux_fits plen cols (le_of_lt hp) (len - d), hd3, ?_, ?_, ?_, hd4, ?_, ?_, ?_⟩
  · omega
  · exact trimAux_ge plen cols (len - d) (pos - d) (by omega) (by omega)
  · omega
  · intro h2
    have := hd5 h2
    omega
  · trivial
  · apply List.ext_getElem
    · simp only [List.length_map, List.length_range, List.length_take, List.length_drop]
      omega
    · intro i h1 h2
      simp only [List.getElem_map, List.getElem_range, List.getElem_take, List.getElem_drop]

/-- The buffer bytes of the C8 witness: the letters of hello, a space and
the letters of world. -/
def c8buf : Nat → Nat := listFn [104, 101, 108, 108, 111, 32, 119, 111, 114, 108, 100]

/-- Concrete check for C8 at the scenario of the claim: prompt length 2,
terminal width 10, an eleven-byte buffer with the cursor at the end. -/
theorem c8_single_line_window_check :
    2 < 10 ∧ 11 ≤ 11 ∧
    (2 + (refreshWindow 2 10 11 11).2.1 ≤ 10 ∧
     2 + (refreshWindow 2 10 11 11).2.2 < 10 ∧
     (refreshWindow 2 10 11 11).1 + (refreshWindow 2 10 11 11).2.2 = 11 ∧
     (refreshWindow 2 10 11 11).2.2 ≤ (refreshWindow 2 10 11 11).2.1 ∧
     (refreshWindow 2 10 11 11).1 + (refreshWindow 2 10 11 11).2.1 ≤ 11 ∧
     (10 ≤ 2 + 11 → 2 + (refreshWindow 2 10 11 11).2.2 + 1 = 10) ∧
     (2 + 11 < 10 → (refreshWindow 2 10 11 11).1 = 0) ∧
     refreshCursorCol 2 10 11 11 = (11 - (refreshWindow 2 10 11 11).1) + 2 ∧
     visibleWindow c8buf 2 10 11 11 =
       (((List.range 11).map c8buf).drop (refreshWindow 2 10 11 11).1).take
         (refreshWindow 2 10 11 11).2.1) :=
  ⟨by decide, by decide, c8_single_line_window c8buf 2 10 11 11 (by decide) (by decide)⟩

/-
Hint rendering (C9).
-/

/-- C9: show_hints renders nothing when the column budget
cols - (plen + len) is exhausted (the guard plen + len at least cols); a
produced hint is truncated to exactly that budget; bold with no color is
rendered as the white color code 37; a style prefix is emitted exactly
when a color or bold is requested, and the style reset is emitted exactly
when the style prefix is, so with neither set no styling sequences are
emitted at all. -/
theorem c9_hint_rendering (plen len cols plen2 len2 cols2 : Nat) (h h2 : Hint)
    (hb : plen + len < cols) (hs : cols2 ≤ plen2 + len2) :
    show_hints plen2 len2 cols2 (some h2) = none ∧
    show_hints plen len cols none = none ∧
    ∃ out, show_hints plen len cols (some h) = some out ∧
      out.text = h.text.take (cols - (plen + len)) ∧
      out.text.length ≤ cols - (plen + len) ∧
      out.colorParam = (if h.bold = true ∧ h.col = HColor.none then (37 : Int) else h.col.code) ∧
      (out.styled = true ↔ (h.col ≠ HColor.none ∨ h.bold = true)) ∧
      out.reset = out.styled := by
  refine ⟨?_, ?_, ?_⟩
  · unfold show_hints
    rw [if_pos hs]
  · unfold show_hints
    rw [if_neg (by omega)]
  · unfold show_hints
    rw [if_neg (by omega)]
    dsimp only
    refine ⟨_, rfl, ?_, ?_, ?_, ?_, rfl⟩
    · dsimp only
      by_cases hl : h.text.length ≤ cols - (plen + len)
      · rw [min_eq_left hl, List.take_length, List.take_of_length_le hl]
      · rw [min_eq_right (by omega)]
    · dsimp only
      rw [List.length_take]
      omega
    · dsimp only
      by_cases hbc : h.bold = true ∧ h.col = HColor.none
      · rw [if_pos hbc, if_pos hbc]
        rfl
      · rw [if_neg hbc, if_neg hbc]
    · dsimp only
      by_cases hbc : h.bold = true ∧ h.col = HColor.none
      · rw [if_pos hbc]
        simp [hbc.1]
      · rw [if_neg hbc]
        simp only [decide_eq_true_eq]

/-- The hint of the C9 witness: eight text bytes, no color, bold. -/
def c9hint : Hint := { text := [104, 105, 106, 107, 108, 109, 110, 111],
                       col := HColor.none, bold := true }

/-- The second hint of the C9 witness, used on the exhausted-budget side. -/
def c9hint2 : Hint := { text := [104], col := HColor.red, bold := false }

/-- Concrete check for C9: prompt length 1, buffer length 2, width 10 on the
rendering side (budget 7, so the eight-byte bold hint is truncated and
rendered white), and prompt length 5, buffer length 5, width 10 on the
suppressed side. -/
theorem c9_hint_rendering_check :
    1 + 2 < 10 ∧ 10 ≤ 5 + 5 ∧
    (show_hints 5 5 10 (some c9hint2) = none ∧
     show_hints 1 2 10 none = none ∧
     ∃ out, show_hints 1 2 10 (some c9hint) = some out ∧
       out.text = c9hint.text.take (10 - (1 + 2)) ∧
       out.text.length ≤ 10 - (1 + 2) ∧
       out.colorParam =
         (if c9hint.bold = true ∧ c9hint.col = HColor.none then (37 : Int)
          else c9hint.col.code) ∧
       (out.styled = true ↔ (c9hint.col ≠ HColor.none ∨ c9hint.bold = true)) ∧
       out.reset = out.styled) :=
  ⟨by decide, by decide,
    c9_hint_rendering 1 2 10 5 5 10 c9hint c9hint2 (by decide) (by decide)⟩

end PeeloPrompt
